import Mathlib

/-!
Verification development for the questionnaire-analytics dashboard
(`app.py`).  The scoring and aggregation pipeline is shallowly embedded:
tables are column-major lists of (question name, cells), machine reals are
modelled exactly by `ℚ`, missing values (NaN) by `Option`, and the
Streamlit control flow by explicit outcome values.
-/

namespace Kuesioner

/-- `SKOR_MAP` from `app.py`: the six Likert answer codes with their scores. -/
def SKOR_MAP : List (String × Int) :=
  [("SS", 6), ("S", 5), ("CS", 4), ("CTS", 3), ("TS", 2), ("STS", 1)]

/-- `URUTAN_SKALA` from `app.py`: canonical display order of the codes. -/
def URUTAN_SKALA : List String := ["SS", "S", "CS", "CTS", "TS", "STS"]

/-- Score lookup in `SKOR_MAP`: `some` score for the six codes, `none` otherwise. -/
def skorOf (c : String) : Option Int :=
  (SKOR_MAP.find? (fun p => p.1 == c)).map Prod.snd

/-- One cell of `df.replace(SKOR_MAP)`: a cell that is a known code becomes its
integer score, any other cell is kept unchanged. -/
def replaceCell (c : String) : Int ⊕ String :=
  match skorOf c with
  | some v => Sum.inl v
  | none => Sum.inr c

/-- Digit-string evaluation, as in `String.toNat?`. -/
def digitsToNat (l : List Char) : Nat :=
  l.foldl (fun n c => n * 10 + (c.toNat - '0'.toNat)) 0

/-- Numeric parsing of a string cell, the integer-literal fragment of the
number syntax accepted by `pd.to_numeric`: an optional minus sign followed by
digits; anything else fails. -/
def parseNumericCell (s : String) : Option Int :=
  match s.data with
  | [] => none
  | '-' :: rest =>
    if rest.isEmpty then none
    else if rest.all Char.isDigit then some (-(digitsToNat rest : Int)) else none
  | l => if l.all Char.isDigit then some ((digitsToNat l : Int)) else none

/-- One cell of `pd.to_numeric(col, errors='coerce')`: numbers pass through,
strings are parsed as numbers when possible (numeric parsing modelled for
integer literals), and anything unparseable coerces to NaN (`none`). -/
def to_numeric (x : Int ⊕ String) : Option Int :=
  match x with
  | Sum.inl v => some v
  | Sum.inr s => parseNumericCell s

/-- The complete per-cell transformation performed by the loader. -/
def toNumericCell (c : String) : Option Int := to_numeric (replaceCell c)

/-- Tables are column-major: a list of (question name, cells down the rows). -/
abbrev Table (α : Type) := List (String × List α)

/-- Successful path of `muat_data`: drop the `Partisipan` column if present and
build the parallel numeric table by applying `replace` + `to_numeric` to every
cell of every remaining column. -/
def muat_data (df : Table String) : Table String × Table (Option Int) :=
  let df2 := df.filter (fun col => !(col.1 == "Partisipan"))
  (df2, df2.map (fun col => (col.1, col.2.map toNumericCell)))

/-- `df.values.flatten()`: every cell of the table. -/
def allCells (df : Table String) : List String := (df.map Prod.snd).flatten

/-- The validity test `v in URUTAN_SKALA`: a cell is valid when it is one of
the six scale codes. -/
def validCell (v : String) : Bool := URUTAN_SKALA.contains v

/-- `dist_global`: keep only cells that are valid scale codes, count the
occurrences of each code, and reindex in canonical scale order so that absent
codes appear with count 0. -/
def dist_global (df : Table String) : List (String × Nat) :=
  let all_vals := (allCells df).filter validCell
  URUTAN_SKALA.map (fun c => (c, all_vals.count c))

/-- `hitung_kategori`: (positive, neutral, negative) counts of one question
column, bucketing SS,S as positive, CS as neutral, CTS,TS,STS as negative. -/
def hitung_kategori (col : List String) : Nat × Nat × Nat :=
  (col.count "SS" + col.count "S",
   col.count "CS",
   col.count "CTS" + col.count "TS" + col.count "STS")

/-- The percentage block of `cat_per_q`: the per-question total with the
zero-replaced-by-one guard, then each bucket as a percentage of the total.
Machine-real arithmetic is modelled exactly in `ℚ`. -/
def cat_per_q_pct (col : List String) : ℚ × ℚ × ℚ :=
  let k := hitung_kategori col
  let total : Nat := k.1 + k.2.1 + k.2.2
  let totalG : Nat := if total = 0 then 1 else total
  ((k.1 : ℚ) / (totalG : ℚ) * 100,
   (k.2.1 : ℚ) / (totalG : ℚ) * 100,
   (k.2.2 : ℚ) / (totalG : ℚ) * 100)

/-- `Series.mean()`: arithmetic mean of the non-missing cells, NaN (`none`)
when every cell is missing. -/
def mean_per_q (col : List (Option Int)) : Option ℚ :=
  let vals := col.filterMap id
  if vals.isEmpty then none
  else some ((vals.map (fun v => (v : ℚ))).sum / (vals.length : ℚ))

/-- `df_num_display.mean()`: the per-question means in column order. -/
def mean_table (dfn : Table (Option Int)) : List (String × Option ℚ) :=
  dfn.map (fun col => (col.1, mean_per_q col.2))

/-- `Series.max()`: maximum over the non-missing entries, NaN when none exist. -/
def series_max (col : List (Option ℚ)) : Option ℚ := (col.filterMap id).max?

/-- `Series.min()`: minimum over the non-missing entries, NaN when none exist. -/
def series_min (col : List (Option ℚ)) : Option ℚ := (col.filterMap id).min?

/-- `Series.idxmax()`: the first label whose value attains the maximum of the
non-missing values; missing when the whole series is missing. -/
def idxmax (ms : List (String × Option ℚ)) : Option String :=
  match series_max (ms.map Prod.snd) with
  | none => none
  | some m => (ms.find? (fun p => decide (p.2 = some m))).map Prod.fst

/-- `Series.idxmin()`: the first label whose value attains the minimum of the
non-missing values; missing when the whole series is missing. -/
def idxmin (ms : List (String × Option ℚ)) : Option String :=
  match series_min (ms.map Prod.snd) with
  | none => none
  | some m => (ms.find? (fun p => decide (p.2 = some m))).map Prod.fst

/-- The `st.metric` rendering of `best_q`/`worst_q`: the label, or a dash when
the argmax/argmin is undefined. -/
def metric_value (r : Option String) : String :=
  match r with
  | none => "-"
  | some q => q

/-- The sidebar column filter: `df[selected_questions]` when at least one
question is selected, the unfiltered table otherwise. -/
def df_display {α : Type} (df : Table α) (selected : List String) : Table α :=
  if selected.isEmpty then df
  else selected.filterMap (fun q => df.find? (fun col => col.1 == q))

/-- The six per-code counts of a list of cells add up to the number of cells
that carry a valid scale code. -/
lemma count_six_eq_length_filter (xs : List String) :
    xs.count "SS" + xs.count "S" + xs.count "CS" +
      xs.count "CTS" + xs.count "TS" + xs.count "STS"
      = (xs.filter validCell).length := by
  induction xs with
  | nil => rfl
  | cons x xs ih =>
    by_cases hx : validCell x
    · have hx6 : x = "SS" ∨ x = "S" ∨ x = "CS" ∨ x = "CTS" ∨ x = "TS" ∨ x = "STS" := by
        simpa [validCell, URUTAN_SKALA] using hx
      rcases hx6 with h | h | h | h | h | h <;> subst h <;>
        simp [List.count_cons, List.filter_cons, hx] <;> omega
    · have hx6 : ¬ x = "SS" ∧ ¬ x = "S" ∧ ¬ x = "CS" ∧
          ¬ x = "CTS" ∧ ¬ x = "TS" ∧ ¬ x = "STS" := by
        constructor
        · intro h; exact hx (by simp [h, validCell, URUTAN_SKALA])
        constructor
        · intro h; exact hx (by simp [h, validCell, URUTAN_SKALA])
        constructor
        · intro h; exact hx (by simp [h, validCell, URUTAN_SKALA])
        constructor
        · intro h; exact hx (by simp [h, validCell, URUTAN_SKALA])
        constructor
        · intro h; exact hx (by simp [h, validCell, URUTAN_SKALA])
        · intro h; exact hx (by simp [h, validCell, URUTAN_SKALA])
      obtain ⟨h1, h2, h3, h4, h5, h6⟩ := hx6
      simp [List.count_cons, List.filter_cons, hx, h1, h2, h3, h4, h5, h6, ih]

/-- The three sentiment buckets of a column add up to its number of valid cells. -/
lemma hitung_kategori_sum (col : List String) :
    (hitung_kategori col).1 + (hitung_kategori col).2.1 + (hitung_kategori col).2.2
      = (col.filter validCell).length := by
  have h := count_six_eq_length_filter col
  simp only [hitung_kategori]
  omega

/-- C2: `dist_global` returns one count per scale code in the canonical order
SS, S, CS, CTS, TS, STS; each code's count is the number of cells equal to
that code (codes with zero occurrences appear with count 0, never omitted),
and the six counts sum to the number of cells carrying a valid scale code. -/
theorem C2_dist_global_spec (df : Table String) :
    (dist_global df).map Prod.fst = URUTAN_SKALA ∧
    (∀ c cnt, (c, cnt) ∈ dist_global df → cnt = (allCells df).count c) ∧
    ((dist_global df).map Prod.snd).sum
      = ((allCells df).filter validCell).length := by
  refine ⟨?_, ?_, ?_⟩
  · simp [dist_global, URUTAN_SKALA]
  · intro c cnt hmem
    simp only [dist_global, List.mem_map] at hmem
    obtain ⟨c', hc', heq⟩ := hmem
    rw [Prod.ext_iff] at heq
    obtain ⟨h1, h2⟩ := heq
    simp only [] at h1 h2
    rw [← h1, ← h2]
    exact List.count_filter (by simpa [validCell] using hc')
  · have hexp : ((dist_global df).map Prod.snd).sum
        = ((allCells df).filter validCell).count "SS"
          + ((allCells df).filter validCell).count "S"
          + ((allCells df).filter validCell).count "CS"
          + ((allCells df).filter validCell).count "CTS"
          + ((allCells df).filter validCell).count "TS"
          + ((allCells df).filter validCell).count "STS" := by
      simp [dist_global, URUTAN_SKALA]
      omega
    rw [hexp, count_six_eq_length_filter, List.filter_filter]
    simp

/-- C2 witness: the spec instantiated on a concrete 2-column table. -/
theorem C2_dist_global_spec_witness :
    ((dist_global [("Q1", ["SS", "x", "S"]), ("Q2", ["SS", "TS", ""])]).map Prod.fst
        = URUTAN_SKALA) ∧
    (2 : Nat) = (allCells [("Q1", ["SS", "x", "S"]), ("Q2", ["SS", "TS", ""])]).count "SS" := by
  have h := C2_dist_global_spec [("Q1", ["SS", "x", "S"]), ("Q2", ["SS", "TS", ""])]
  exact ⟨h.1, h.2.1 "SS" 2 (by decide)⟩

/-- C3: `hitung_kategori` maps a question column to (positive, neutral,
negative), where positive counts the SS and S cells, neutral the CS cells and
negative the CTS, TS and STS cells; the three counts sum to at most the number
of cells, with equality exactly when every cell is a valid scale code, so
invalid cells contribute to no bucket. -/
theorem C3_hitung_kategori_spec (col : List String) :
    (hitung_kategori col).1 = col.count "SS" + col.count "S" ∧
    (hitung_kategori col).2.1 = col.count "CS" ∧
    (hitung_kategori col).2.2 = col.count "CTS" + col.count "TS" + col.count "STS" ∧
    (hitung_kategori col).1 + (hitung_kategori col).2.1 + (hitung_kategori col).2.2
      ≤ col.length ∧
    ((hitung_kategori col).1 + (hitung_kategori col).2.1 + (hitung_kategori col).2.2
        = col.length ↔ ∀ c ∈ col, validCell c) := by
  refine ⟨rfl, rfl, rfl, ?_, ?_⟩
  · rw [hitung_kategori_sum]
    exact List.length_filter_le _ _
  · rw [hitung_kategori_sum]
    constructor
    · intro h
      have hsub := List.filter_sublist (p := validCell) col
      have := hsub.eq_of_length h
      intro c hc
      rw [← this] at hc
      exact (List.mem_filter.mp hc).2
    · intro h
      rw [List.filter_eq_self.mpr h]

/-- C3 witness: the bucket counts and the strict-inequality case on a concrete
column containing one invalid cell. -/
theorem C3_hitung_kategori_spec_witness :
    (hitung_kategori ["SS", "S", "x", "TS"]).1 = 2 ∧
    ¬ ((hitung_kategori ["SS", "S", "x", "TS"]).1
        + (hitung_kategori ["SS", "S", "x", "TS"]).2.1
        + (hitung_kategori ["SS", "S", "x", "TS"]).2.2 = 4) := by
  have h := C3_hitung_kategori_spec ["SS", "S", "x", "TS"]
  refine ⟨by decide, fun hk => ?_⟩
  have := (h.2.2.2.2.mp (by simpa using hk)) "x" (by decide)
  exact absurd this (by decide)

/-- C4: the percentage block divides each sentiment bucket by the per-question
total positive+neutral+negative, with a zero total replaced by 1 before
dividing; consequently a question with zero valid scale cells yields exactly
(0, 0, 0) instead of failing. -/
theorem C4_cat_per_q_pct_spec (col : List String) :
    ((hitung_kategori col).1 + (hitung_kategori col).2.1
        + (hitung_kategori col).2.2 ≠ 0 →
      cat_per_q_pct col
        = (((hitung_kategori col).1 : ℚ)
             / (((hitung_kategori col).1 + (hitung_kategori col).2.1
                + (hitung_kategori col).2.2 : Nat) : ℚ) * 100,
           ((hitung_kategori col).2.1 : ℚ)
             / (((hitung_kategori col).1 + (hitung_kategori col).2.1
                + (hitung_kategori col).2.2 : Nat) : ℚ) * 100,
           ((hitung_kategori col).2.2 : ℚ)
             / (((hitung_kategori col).1 + (hitung_kategori col).2.1
                + (hitung_kategori col).2.2 : Nat) : ℚ) * 100)) ∧
    ((∀ c ∈ col, ¬ validCell c) → cat_per_q_pct col = (0, 0, 0)) := by
  constructor
  · intro ht
    simp [cat_per_q_pct, ht]
  intro h
  have hs := hitung_kategori_sum col
  have hf : col.filter validCell = [] := by
    rw [List.filter_eq_nil_iff]
    intro c hc
    exact h c hc
  rw [hf] at hs
  simp only [List.length_nil] at hs
  have h1 : (hitung_kategori col).1 = 0 := by omega
  have h2 : (hitung_kategori col).2.1 = 0 := by omega
  have h3 : (hitung_kategori col).2.2 = 0 := by omega
  simp [cat_per_q_pct, h1, h2, h3]

/-- C4 witness: a column with no valid cell yields all-zero percentages. -/
theorem C4_cat_per_q_pct_spec_witness :
    cat_per_q_pct ["x", "", "maybe"] = (0, 0, 0) :=
  (C4_cat_per_q_pct_spec ["x", "", "maybe"]).2 (by decide)

/-- C10: for a question with at least one valid scale cell, the three
sentiment percentages sum to exactly 100 and each lies between 0 and 100. -/
theorem C10_pct_sum_100 (col : List String) (h : ∃ c ∈ col, validCell c) :
    (cat_per_q_pct col).1 + (cat_per_q_pct col).2.1 + (cat_per_q_pct col).2.2 = 100 ∧
    0 ≤ (cat_per_q_pct col).1 ∧ (cat_per_q_pct col).1 ≤ 100 ∧
    0 ≤ (cat_per_q_pct col).2.1 ∧ (cat_per_q_pct col).2.1 ≤ 100 ∧
    0 ≤ (cat_per_q_pct col).2.2 ∧ (cat_per_q_pct col).2.2 ≤ 100 := by
  obtain ⟨c, hc, hv⟩ := h
  have hmem : c ∈ col.filter validCell := List.mem_filter.mpr ⟨hc, hv⟩
  have hpos : 0 < (col.filter validCell).length :=
    List.length_pos.mpr (List.ne_nil_of_mem hmem)
  have ht : ¬ ((hitung_kategori col).1 + (hitung_kategori col).2.1
      + (hitung_kategori col).2.2 = 0) := by
    rw [hitung_kategori_sum]
    omega
  have htQ : (0 : ℚ) < (((hitung_kategori col).1 + (hitung_kategori col).2.1
      + (hitung_kategori col).2.2 : Nat) : ℚ) := by
    have : 0 < (hitung_kategori col).1 + (hitung_kategori col).2.1
        + (hitung_kategori col).2.2 := Nat.pos_of_ne_zero ht
    exact_mod_cast this
  have hp : ((hitung_kategori col).1 : ℚ) ≤ (((hitung_kategori col).1
      + (hitung_kategori col).2.1 + (hitung_kategori col).2.2 : Nat) : ℚ) := by
    have : (hitung_kategori col).1 ≤ (hitung_kategori col).1
        + (hitung_kategori col).2.1 + (hitung_kategori col).2.2 := by omega
    exact_mod_cast this
  have hn : ((hitung_kategori col).2.1 : ℚ) ≤ (((hitung_kategori col).1
      + (hitung_kategori col).2.1 + (hitung_kategori col).2.2 : Nat) : ℚ) := by
    have : (hitung_kategori col).2.1 ≤ (hitung_kategori col).1
        + (hitung_kategori col).2.1 + (hitung_kategori col).2.2 := by omega
    exact_mod_cast this
  have hg : ((hitung_kategori col).2.2 : ℚ) ≤ (((hitung_kategori col).1
      + (hitung_kategori col).2.1 + (hitung_kategori col).2.2 : Nat) : ℚ) := by
    have : (hitung_kategori col).2.2 ≤ (hitung_kategori col).1
        + (hitung_kategori col).2.1 + (hitung_kategori col).2.2 := by omega
    exact_mod_cast this
  have hsumQ : ((hitung_kategori col).1 : ℚ) + ((hitung_kategori col).2.1 : ℚ)
      + ((hitung_kategori col).2.2 : ℚ)
      = (((hitung_kategori col).1 + (hitung_kategori col).2.1
          + (hitung_kategori col).2.2 : Nat) : ℚ) := by
    push_cast
    ring
  have hne : (((hitung_kategori col).1 + (hitung_kategori col).2.1
      + (hitung_kategori col).2.2 : Nat) : ℚ) ≠ 0 := ne_of_gt htQ
  simp only [cat_per_q_pct, ht, if_false]
  refine ⟨?_, ?_, ?_, ?_, ?_, ?_, ?_⟩
  · rw [div_mul_eq_mul_div, div_mul_eq_mul_div, div_mul_eq_mul_div,
      div_add_div_same, div_add_div_same, div_eq_iff hne, ← hsumQ]
    ring
  · positivity
  · rw [div_mul_eq_mul_div, div_le_iff₀ htQ]
    nlinarith [hp]
  · positivity
  · rw [div_mul_eq_mul_div, div_le_iff₀ htQ]
    nlinarith [hn]
  · positivity
  · rw [div_mul_eq_mul_div, div_le_iff₀ htQ]
    nlinarith [hg]

/-- C10 witness: on a concrete mixed column the percentages sum to 100. -/
theorem C10_pct_sum_100_witness :
    (cat_per_q_pct ["SS", "x", "TS"]).1 + (cat_per_q_pct ["SS", "x", "TS"]).2.1
      + (cat_per_q_pct ["SS", "x", "TS"]).2.2 = 100 :=
  (C10_pct_sum_100 ["SS", "x", "TS"] ⟨"SS", by decide, by decide⟩).1

/-- C5: the per-question mean is the arithmetic mean of the non-missing
scores; missing cells are ignored (prepending a missing cell never changes the
mean), an all-missing column yields NaN (`none`) rather than an error, and on
the 3x2 table Q1=[SS,S,TS], Q2=[CS,CS,STS] the loader-plus-mean pipeline
returns (6+5+2)/3 for Q1 and (4+4+1)/3 for Q2. -/
theorem C5_mean_per_q_spec :
    (∀ col : List (Option Int), col.filterMap id ≠ [] →
      mean_per_q col
        = some (((col.filterMap id).map (fun v => (v : ℚ))).sum
            / ((col.filterMap id).length : ℚ))) ∧
    (∀ col : List (Option Int), (∀ x ∈ col, x = none) → mean_per_q col = none) ∧
    (∀ col : List (Option Int), mean_per_q (none :: col) = mean_per_q col) ∧
    mean_table (muat_data [("Q1", ["SS", "S", "TS"]), ("Q2", ["CS", "CS", "STS"])]).2
      = [("Q1", some ((6 + 5 + 2) / 3 : ℚ)), ("Q2", some ((4 + 4 + 1) / 3 : ℚ))] := by
  refine ⟨?_, ?_, ?_, ?_⟩
  · intro col hne
    rw [mean_per_q]
    simp only [List.isEmpty_iff]
    rw [if_neg hne]
  · intro col hall
    have h : col.filterMap id = [] := by
      rw [List.filterMap_eq_nil_iff]
      intro x hx
      exact hall x hx
    rw [mean_per_q]
    simp [h]
  · intro col
    simp [mean_per_q]
  · have hSS : toNumericCell "SS" = some 6 := by decide
    have hS : toNumericCell "S" = some 5 := by decide
    have hCS : toNumericCell "CS" = some 4 := by decide
    have hTS : toNumericCell "TS" = some 2 := by decide
    have hSTS : toNumericCell "STS" = some 1 := by decide
    simp [mean_table, muat_data, mean_per_q, hSS, hS, hCS, hTS, hSTS]
    norm_num

/-- C5 witness: an all-missing column has an undefined mean. -/
theorem C5_mean_per_q_spec_witness :
    mean_per_q [none, none] = none :=
  C5_mean_per_q_spec.2.1 [none, none] (by decide)

/-- A successful `find?` splits the list at the first hit: everything before
the returned element fails the predicate. -/
lemma find?_decomp {α : Type} (p : α → Bool) (l : List α) (a : α)
    (h : l.find? p = some a) :
    p a = true ∧ ∃ l₁ l₂, l = l₁ ++ a :: l₂ ∧ ∀ x ∈ l₁, ¬ p x := by
  induction l with
  | nil => simp at h
  | cons x xs ih =>
    by_cases hx : p x
    · rw [List.find?_cons_of_pos _ hx] at h
      obtain rfl : x = a := Option.some.inj h
      exact ⟨hx, [], xs, rfl, by simp⟩
    · rw [List.find?_cons_of_neg _ hx] at h
      obtain ⟨hpa, l₁, l₂, hsplit, hl₁⟩ := ih h
      refine ⟨hpa, x :: l₁, l₂, by rw [hsplit, List.cons_append], ?_⟩
      intro y hy
      rcases List.mem_cons.mp hy with rfl | hy'
      · exact hx
      · exact hl₁ y hy'

/-- A defined `series_max` is attained by some entry and bounds every entry. -/
lemma series_max_spec (col : List (Option ℚ)) (m : ℚ) (h : series_max col = some m) :
    some m ∈ col ∧ ∀ x ∈ col, ∀ v : ℚ, x = some v → v ≤ m := by
  have anti : Std.Antisymm (fun a b : ℚ => a ≤ b) := ⟨fun h1 h2 => le_antisymm h1 h2⟩
  rw [series_max, List.max?_eq_some_iff (fun a => le_refl a) (fun a b => max_choice a b)
    (fun a b c => max_le_iff)] at h
  obtain ⟨hmem, hub⟩ := h
  obtain ⟨x, hx, hxm⟩ := List.mem_filterMap.mp hmem
  constructor
  · have : x = some m := hxm
    exact this ▸ hx
  · intro x hxmem v hv
    exact hub v (List.mem_filterMap.mpr ⟨x, hxmem, by rw [hv]; rfl⟩)

/-- A defined `series_min` is attained by some entry and is below every entry. -/
lemma series_min_spec (col : List (Option ℚ)) (m : ℚ) (h : series_min col = some m) :
    some m ∈ col ∧ ∀ x ∈ col, ∀ v : ℚ, x = some v → m ≤ v := by
  have anti : Std.Antisymm (fun a b : ℚ => a ≤ b) := ⟨fun h1 h2 => le_antisymm h1 h2⟩
  rw [series_min, List.min?_eq_some_iff (fun a => le_refl a) (fun a b => min_choice a b)
    (fun a b c => le_min_iff)] at h
  obtain ⟨hmem, hlb⟩ := h
  obtain ⟨x, hx, hxm⟩ := List.mem_filterMap.mp hmem
  constructor
  · have : x = some m := hxm
    exact this ▸ hx
  · intro x hxmem v hv
    exact hlb v (List.mem_filterMap.mpr ⟨x, hxmem, by rw [hv]; rfl⟩)

/-- C6: `best_q`/`worst_q` return the first question attaining the maximum
(resp. minimum) mean: a returned label carries the extreme value, every
defined mean is bounded by it, and every question strictly before it in
column order misses that value (first-occurrence tie-break); when every mean
is NaN both argmax and argmin are undefined and `st.metric` renders a dash
instead of raising. -/
theorem C6_best_worst_spec (ms : List (String × Option ℚ)) :
    ((∀ p ∈ ms, p.2 = none) →
      idxmax ms = none ∧ idxmin ms = none ∧
      metric_value (idxmax ms) = "-" ∧ metric_value (idxmin ms) = "-") ∧
    (∀ q, idxmax ms = some q →
      ∃ v, series_max (ms.map Prod.snd) = some v ∧ (q, some v) ∈ ms ∧
        (∀ p ∈ ms, ∀ w : ℚ, p.2 = some w → w ≤ v) ∧
        ∃ l₁ l₂, ms = l₁ ++ (q, some v) :: l₂ ∧ ∀ p ∈ l₁, p.2 ≠ some v) ∧
    (∀ q, idxmin ms = some q →
      ∃ v, series_min (ms.map Prod.snd) = some v ∧ (q, some v) ∈ ms ∧
        (∀ p ∈ ms, ∀ w : ℚ, p.2 = some w → v ≤ w) ∧
        ∃ l₁ l₂, ms = l₁ ++ (q, some v) :: l₂ ∧ ∀ p ∈ l₁, p.2 ≠ some v) := by
  refine ⟨?_, ?_, ?_⟩
  · intro hall
    have hnil : (ms.map Prod.snd).filterMap id = [] := by
      rw [List.filterMap_eq_nil_iff]
      intro x hx
      obtain ⟨p, hp, rfl⟩ := List.mem_map.mp hx
      exact hall p hp
    have hmax : idxmax ms = none := by
      rw [idxmax, series_max, hnil]
      rfl
    have hmin : idxmin ms = none := by
      rw [idxmin, series_min, hnil]
      rfl
    exact ⟨hmax, hmin, by rw [hmax]; rfl, by rw [hmin]; rfl⟩
  · intro q hq
    cases hm : series_max (ms.map Prod.snd) with
    | none =>
      simp only [idxmax, hm] at hq
      exact absurd hq (by simp)
    | some m =>
      simp only [idxmax, hm] at hq
      obtain ⟨p, hfind, rfl⟩ : ∃ p, ms.find? (fun p => decide (p.2 = some m)) = some p ∧ p.1 = q := by
        cases hfind : ms.find? (fun p => decide (p.2 = some m)) with
        | none => rw [hfind] at hq; exact absurd hq (by simp)
        | some p => rw [hfind] at hq; exact ⟨p, rfl, Option.some.inj hq⟩
      obtain ⟨hpa, l₁, l₂, hsplit, hl₁⟩ := find?_decomp _ _ _ hfind
      have hp2 : p.2 = some m := of_decide_eq_true hpa
      have hspec := series_max_spec (ms.map Prod.snd) m hm
      refine ⟨m, rfl, ?_, ?_, l₁, l₂, ?_, ?_⟩
      · rw [hsplit]
        have : p = (p.1, some m) := by rw [← hp2]
        exact this ▸ List.mem_append_right _ (List.mem_cons_self _ _)
      · intro x hx w hw
        exact hspec.2 x.2 (List.mem_map.mpr ⟨x, hx, rfl⟩) w hw
      · rw [hsplit]
        have : p = (p.1, some m) := by rw [← hp2]
        rw [← this]
      · intro x hx hcontra
        exact hl₁ x hx (by simp [hcontra])
  · intro q hq
    cases hm : series_min (ms.map Prod.snd) with
    | none =>
      simp only [idxmin, hm] at hq
      exact absurd hq (by simp)
    | some m =>
      simp only [idxmin, hm] at hq
      obtain ⟨p, hfind, rfl⟩ : ∃ p, ms.find? (fun p => decide (p.2 = some m)) = some p ∧ p.1 = q := by
        cases hfind : ms.find? (fun p => decide (p.2 = some m)) with
        | none => rw [hfind] at hq; exact absurd hq (by simp)
        | some p => rw [hfind] at hq; exact ⟨p, rfl, Option.some.inj hq⟩
      obtain ⟨hpa, l₁, l₂, hsplit, hl₁⟩ := find?_decomp _ _ _ hfind
      have hp2 : p.2 = some m := of_decide_eq_true hpa
      have hspec := series_min_spec (ms.map Prod.snd) m hm
      refine ⟨m, rfl, ?_, ?_, l₁, l₂, ?_, ?_⟩
      · rw [hsplit]
        have : p = (p.1, some m) := by rw [← hp2]
        exact this ▸ List.mem_append_right _ (List.mem_cons_self _ _)
      · intro x hx w hw
        exact hspec.2 x.2 (List.mem_map.mpr ⟨x, hx, rfl⟩) w hw
      · rw [hsplit]
        have : p = (p.1, some m) := by rw [← hp2]
        rw [← this]
      · intro x hx hcontra
        exact hl₁ x hx (by simp [hcontra])

/-- C6 witness: on concrete means with a tie at the maximum, the argmax is the
first tied question and an all-NaN series renders as a dash. -/
theorem C6_best_worst_spec_witness :
    idxmax [("Q1", some 4), ("Q2", some 4), ("Q3", some 1)] = some "Q1" ∧
    idxmin [("Q1", some 4), ("Q2", some 4), ("Q3", some 1)] = some "Q3" ∧
    metric_value (idxmax [("Q1", none), ("Q2", none)]) = "-" := by
  refine ⟨by rfl, by rfl, ?_⟩
  exact ((C6_best_worst_spec [("Q1", none), ("Q2", none)]).1 (by decide)).2.2.1

/-- C1 counterexample: the raw cell "7" is not one of the six scale codes,
yet the loader's numeric table carries the number 7 for it, not missing:
`pd.to_numeric(..., errors='coerce')` parses numeric free text instead of
coercing it to NaN. -/
theorem C1_counterexample :
    skorOf "7" = none ∧
    (muat_data [("Q1", ["7"])]).2 = [("Q1", [some 7])] ∧
    ¬ (muat_data [("Q1", ["7"])]).2 = [("Q1", [none])] := by
  refine ⟨rfl, rfl, ?_⟩
  decide

/-- C1 (amended): every column of the numeric table is the raw column mapped
cell-by-cell; a cell that is one of the six codes becomes its scale score, and
any other cell is numerically coerced — its parsed numeric value when it
parses as a number, missing (NaN) when it does not. -/
theorem C1_muat_data_cells (df : Table String) (q : String) (raw : List String)
    (h : (q, raw) ∈ (muat_data df).1) :
    (q, raw.map toNumericCell) ∈ (muat_data df).2 ∧
    ∀ c ∈ raw,
      (∀ v, skorOf c = some v → toNumericCell c = some v) ∧
      (skorOf c = none → toNumericCell c = parseNumericCell c) := by
  constructor
  · have hrw : (muat_data df).2
        = (muat_data df).1.map (fun col => (col.1, col.2.map toNumericCell)) := rfl
    rw [hrw]
    exact List.mem_map.mpr ⟨(q, raw), h, rfl⟩
  · intro c _
    constructor
    · intro v hv
      simp [toNumericCell, replaceCell, to_numeric, hv]
    · intro hv
      simp [toNumericCell, replaceCell, to_numeric, hv]

/-- C1 witness: the amended statement on a column mixing a code, numeric free
text and plain free text. -/
theorem C1_muat_data_cells_witness :
    ("Q1", ["SS", "7", "x"].map toNumericCell)
      ∈ (muat_data [("Q1", ["SS", "7", "x"])]).2 :=
  (C1_muat_data_cells [("Q1", ["SS", "7", "x"])] "Q1" ["SS", "7", "x"] (by decide)).1

/-- Projecting onto present columns keeps the selection order and returns
columns of the original table unchanged. -/
lemma df_display_project {α : Type} (df : Table α) :
    ∀ selected : List String, (∀ q ∈ selected, ∃ p ∈ df, p.1 = q) →
      (selected.filterMap (fun q => df.find? (fun col => col.1 == q))).map Prod.fst
          = selected ∧
      ∀ p ∈ selected.filterMap (fun q => df.find? (fun col => col.1 == q)), p ∈ df := by
  intro selected
  induction selected with
  | nil => intro _; simp
  | cons q rest ih =>
    intro hall
    obtain ⟨col, hcol⟩ : ∃ col, df.find? (fun c => c.1 == q) = some col := by
      obtain ⟨p, hp, hpq⟩ := hall q (List.mem_cons_self q rest)
      cases hf : df.find? (fun c => c.1 == q) with
      | some col => exact ⟨col, rfl⟩
      | none =>
        have := List.find?_eq_none.mp hf p hp
        exact absurd (by simp [hpq]) this
    obtain ⟨ihm, ihmem⟩ := ih (fun q' hq' => hall q' (List.mem_cons_of_mem _ hq'))
    have hq : col.1 = q := by
      have hbeq := List.find?_some hcol
      simp only [beq_iff_eq] at hbeq
      exact hbeq
    constructor
    · simp only [List.filterMap_cons, hcol, List.map_cons, ihm, hq]
    · intro p hp
      simp only [List.filterMap_cons, hcol] at hp
      rcases List.mem_cons.mp hp with rfl | hp'
      · exact List.mem_of_find?_eq_some hcol
      · exact ihmem p hp'

/-- C7: the question filter projects the table onto the selected columns in
selection order, each kept column being a column of the input with its cells
(hence row order) unchanged; an empty selection falls back to the full column
set, so the displayed table is column-identical to the unfiltered input and
never an empty table.  The definition is polymorphic in the cell type, so one
statement covers the raw and the numeric table. -/
theorem C7_df_display_spec {α : Type} (df : Table α) (selected : List String) :
    df_display df [] = df ∧
    (selected ≠ [] → (∀ q ∈ selected, ∃ p ∈ df, p.1 = q) →
      (df_display df selected).map Prod.fst = selected ∧
      ∀ p ∈ df_display df selected, p ∈ df) := by
  constructor
  · rfl
  · intro hne hall
    rw [df_display, if_neg (by simpa [List.isEmpty_iff] using hne)]
    exact df_display_project df selected hall

/-- C7 witness: a two-column selection from a three-column table keeps exactly
those columns in selection order. -/
theorem C7_df_display_spec_witness :
    (df_display [("Q1", [1]), ("Q2", [2]), ("Q3", [3])] ["Q3", "Q1"]).map Prod.fst
      = ["Q3", "Q1"] :=
  ((C7_df_display_spec [("Q1", [1]), ("Q2", [2]), ("Q3", [3])] ["Q3", "Q1"]).2
    (by decide)
    (by
      intro q hq
      rcases List.mem_cons.mp hq with rfl | hq'
      · exact ⟨("Q3", [3]), by decide, rfl⟩
      · rcases List.mem_cons.mp hq' with rfl | hq''
        · exact ⟨("Q1", [1]), by decide, rfl⟩
        · exact absurd hq'' (List.not_mem_nil q))).1

/-- Outcome of the loading environment: the source file may be absent, the
spreadsheet engine may be missing, reading may fail, or a raw table is read. -/
inductive LoadResult where
  | fileNotFound
  | importError
  | otherError
  | ok (df : Table String)

/-- The user-visible messages the script can emit: the three `st.error` calls
of `muat_data` and the `st.warning` of the post-load empty check. -/
inductive Msg where
  | errFileNotFound
  | errDependency
  | errMalformed
  | warnEmpty
deriving DecidableEq

/-- `df.empty`: true when the frame has no columns or no rows. -/
def tableEmpty (df : Table String) : Bool :=
  match df with
  | [] => true
  | c :: _ => c.2.isEmpty

/-- Control flow of `muat_data`: the emitted messages and the returned tables;
`none` models `st.stop` (the missing-file path stops inside the loader, the
two exception handlers return a pair of empty frames). -/
def muat_data_run (r : LoadResult) : List Msg × Option (Table String × Table (Option Int)) :=
  match r with
  | LoadResult.fileNotFound => ([Msg.errFileNotFound], none)
  | LoadResult.importError => ([Msg.errDependency], some ([], []))
  | LoadResult.otherError => ([Msg.errMalformed], some ([], []))
  | LoadResult.ok df => ([], some (muat_data df))

/-- The top of the script after loading: halt if the loader stopped, warn and
halt when the loaded table is empty, otherwise proceed.  The boolean records
whether the aggregation and view code runs. -/
def app_run (r : LoadResult) : List Msg × Bool :=
  match muat_data_run r with
  | (msgs, none) => (msgs, false)
  | (msgs, some (df, _)) =>
    if tableEmpty df then (msgs ++ [Msg.warnEmpty], false) else (msgs, true)

/-- C8: a successfully loaded table with zero rows halts the run with the
empty-data warning before any aggregation or view runs, and only then is that
warning the sole message; each loader failure (missing file, missing
spreadsheet engine, malformed source) also halts the run carrying its own
distinct error message; a nonempty load proceeds. -/
theorem C8_halt_spec (df : Table String) :
    (tableEmpty (muat_data df).1 = true →
      app_run (LoadResult.ok df) = ([Msg.warnEmpty], false)) ∧
    (tableEmpty (muat_data df).1 = false →
      app_run (LoadResult.ok df) = ([], true)) ∧
    app_run LoadResult.fileNotFound = ([Msg.errFileNotFound], false) ∧
    app_run LoadResult.importError = ([Msg.errDependency, Msg.warnEmpty], false) ∧
    app_run LoadResult.otherError = ([Msg.errMalformed, Msg.warnEmpty], false) ∧
    Msg.warnEmpty ∉ [Msg.errFileNotFound, Msg.errDependency, Msg.errMalformed] := by
  refine ⟨?_, ?_, rfl, rfl, rfl, by decide⟩
  · intro h
    simp [app_run, muat_data_run, h]
  · intro h
    simp [app_run, muat_data_run, h]

/-- C8 witness: a table whose only column has no rows halts with the warning,
and the missing-file path halts with its own message. -/
theorem C8_halt_spec_witness :
    app_run (LoadResult.ok [("Q1", [])]) = ([Msg.warnEmpty], false) ∧
    app_run LoadResult.fileNotFound = ([Msg.errFileNotFound], false) :=
  ⟨(C8_halt_spec [("Q1", [])]).1 (by decide), (C8_halt_spec [("Q1", [])]).2.2.1⟩

/-- Characters that force CSV quoting of a field: the delimiter, the quote
and line breaks (`csv.QUOTE_MINIMAL`, the `to_csv` default). -/
def isSpecialChar (c : Char) : Bool := c == ',' || c == '"' || c == '\n' || c == '\r'

/-- CSV quote escaping: each quote character is doubled. -/
def escapeQuotes : List Char → List Char
  | [] => []
  | c :: cs => if c = '"' then '"' :: '"' :: escapeQuotes cs else c :: escapeQuotes cs

/-- One CSV field: quoted with doubled inner quotes when it contains a
special character, written verbatim otherwise. -/
def encodeCell (s : List Char) : List Char :=
  if s.any isSpecialChar then '"' :: (escapeQuotes s ++ ['"']) else s

/-- One CSV record: the fields joined by commas. -/
def encodeRow : List (List Char) → List Char
  | [] => []
  | [c] => encodeCell c
  | c :: cs => encodeCell c ++ ',' :: encodeRow cs

/-- Modelled from the spec: the external CSV writer behind `df.to_csv` —
a comma-separated text stream, one line per row, each line terminated by a
newline. -/
def encodeCSV (rows : List (List (List Char))) : List Char :=
  (rows.map (fun r => encodeRow r ++ '\n' :: [])).flatten

/-- Quoted-field parsing after the opening quote: a doubled quote is a
literal quote, a single quote closes the field. -/
def parseQuoted : List Char → List Char × List Char
  | [] => ([], [])
  | c :: rest =>
    if c = '"' then
      match rest with
      | [] => ([], [])
      | c2 :: rest2 =>
        if c2 = '"' then
          let p := parseQuoted rest2
          ('"' :: p.1, p.2)
        else ([], rest)
    else
      let p := parseQuoted rest
      (c :: p.1, p.2)

/-- Unquoted-field parsing: take characters up to the next delimiter or
line break. -/
def parseUnquoted : List Char → List Char × List Char
  | [] => ([], [])
  | c :: rest =>
    if c = ',' ∨ c = '\n' then ([], c :: rest)
    else
      let p := parseUnquoted rest
      (c :: p.1, p.2)

/-- One CSV field: quoted when it opens with a quote, unquoted otherwise. -/
def parseField : List Char → List Char × List Char
  | [] => ([], [])
  | c :: rest => if c = '"' then parseQuoted rest else parseUnquoted (c :: rest)

/-- Parsing a quoted field consumes no more than the input. -/
lemma parseQuoted_rest_le (s : List Char) : (parseQuoted s).2.length ≤ s.length := by
  induction s using parseQuoted.induct with
  | case1 => simp [parseQuoted]
  | case2 => simp [parseQuoted]
  | case3 rest2 ih =>
    simp only [parseQuoted, if_pos] at ih ⊢
    simp at ih ⊢
    omega
  | case4 c2 rest2 h => simp [parseQuoted, h]
  | case5 c2 rest2 h ih =>
    rw [parseQuoted.eq_def]
    simp [h]
    omega

/-- Parsing an unquoted field consumes no more than the input. -/
lemma parseUnquoted_rest_le (s : List Char) : (parseUnquoted s).2.length ≤ s.length := by
  induction s using parseUnquoted.induct with
  | case1 => simp [parseUnquoted]
  | case2 c rest h => simp [parseUnquoted, h]
  | case3 c rest h ih =>
    simp [parseUnquoted, h] at ih ⊢
    omega

/-- Parsing a field consumes no more than the input. -/
lemma parseField_rest_le (s : List Char) : (parseField s).2.length ≤ s.length := by
  match s with
  | [] => simp [parseField]
  | c :: rest =>
    by_cases h : c = '"'
    · simp only [parseField, if_pos h]
      have := parseQuoted_rest_le rest
      simp
      omega
    · simp only [parseField, if_neg h]
      exact parseUnquoted_rest_le (c :: rest)

/-- One CSV record: fields separated by commas until a line break or the end
of the input. -/
def parseRow (s : List Char) : List (List Char) × List Char :=
  match h : (parseField s).2 with
  | c :: rest =>
    if c = ',' then
      let q := parseRow rest
      ((parseField s).1 :: q.1, q.2)
    else if c = '\n' then ([(parseField s).1], rest)
    else ([(parseField s).1], c :: rest)
  | [] => ([(parseField s).1], [])
termination_by s.length
decreasing_by
  have h2 := parseField_rest_le s
  rw [h] at h2
  simp at h2
  omega

/-- Fuelled record loop of the CSV reader. -/
def parseCSVFuel : Nat → List Char → List (List (List Char))
  | 0, _ => []
  | n + 1, s =>
    if s.isEmpty then []
    else
      let p := parseRow s
      p.1 :: parseCSVFuel n p.2

/-- Modelled from the spec: the external CSV reader behind re-parsing the
export — records split at unquoted line breaks, each record split at unquoted
commas, fields unquoted.  One character of fuel per record always suffices. -/
def parseCSV (s : List Char) : List (List (List Char)) := parseCSVFuel (s.length + 1) s

/-- Unquoting inverts quoting provided no literal quote follows the closing
quote (after a written field comes a comma, a newline or the end). -/
lemma parseQuoted_escape (s rest : List Char) (h : rest.head? ≠ some '"') :
    parseQuoted (escapeQuotes s ++ ('"' :: rest)) = (s, rest) := by
  induction s with
  | nil =>
    simp only [escapeQuotes, List.nil_append]
    rw [parseQuoted.eq_def]
    cases rest with
    | nil => simp
    | cons c2 rest2 =>
      have hc2 : ¬ c2 = '"' := by simpa using h
      simp [hc2]
  | cons c s' ih =>
    by_cases hc : c = '"'
    · subst hc
      simp only [escapeQuotes, if_pos rfl, List.cons_append]
      rw [parseQuoted.eq_def]
      simp [ih]
    · simp only [escapeQuotes, if_neg hc, List.cons_append]
      rw [parseQuoted.eq_def]
      simp [hc, ih]

/-- Reading an unquoted field stops exactly at the appended terminator. -/
lemma parseUnquoted_append (s rest : List Char)
    (hs : ∀ c ∈ s, ¬ (c = ',' ∨ c = '\n'))
    (hrest : rest = [] ∨ ∃ c rest2, rest = c :: rest2 ∧ (c = ',' ∨ c = '\n')) :
    parseUnquoted (s ++ rest) = (s, rest) := by
  induction s with
  | nil =>
    simp only [List.nil_append]
    rcases hrest with rfl | ⟨c, rest2, rfl, hc⟩
    · rfl
    · rw [parseUnquoted.eq_def]
      simp [hc]
  | cons c s' ih =>
    have hc := hs c (List.mem_cons_self c s')
    rw [List.cons_append, parseUnquoted.eq_def]
    simp only [hc, if_false]
    rw [ih (fun x hx => hs x (List.mem_cons_of_mem c hx))]

/-- Field parsing inverts field encoding up to the terminator. -/
lemma parseField_encodeCell (s rest : List Char)
    (hrest : rest = [] ∨ ∃ c rest2, rest = c :: rest2 ∧ (c = ',' ∨ c = '\n')) :
    parseField (encodeCell s ++ rest) = (s, rest) := by
  have hhead : rest.head? ≠ some '"' := by
    rcases hrest with rfl | ⟨c, rest2, rfl, hc⟩
    · simp
    · rcases hc with rfl | rfl <;> simp
  by_cases hq : s.any isSpecialChar
  · rw [encodeCell, if_pos hq]
    have hassoc : ('"' :: (escapeQuotes s ++ ['"'])) ++ rest
        = '"' :: (escapeQuotes s ++ ('"' :: rest)) := by simp
    rw [hassoc, parseField]
    simp only [if_pos rfl]
    exact parseQuoted_escape s rest hhead
  · rw [encodeCell, if_neg hq]
    have hs : ∀ c ∈ s, isSpecialChar c = false := by
      intro c hc
      by_contra hcc
      exact hq (List.any_eq_true.mpr ⟨c, hc, by simpa using hcc⟩)
    cases s with
    | nil =>
      simp only [List.nil_append]
      rcases hrest with rfl | ⟨c, rest2, rfl, hc⟩
      · rfl
      · have hcq : ¬ c = '"' := by
          rcases hc with rfl | rfl <;> simp
        rw [parseField]
        simp only [hcq, if_false]
        rw [parseUnquoted.eq_def]
        simp [hc]
    | cons c s' =>
      have hcs : isSpecialChar c = false := hs c (List.mem_cons_self c s')
      have hcq : ¬ c = '"' := by
        intro hcc
        rw [hcc] at hcs
        simp [isSpecialChar] at hcs
      rw [List.cons_append, parseField]
      simp only [hcq, if_false]
      rw [← List.cons_append]
      apply parseUnquoted_append (c :: s') rest ?_ hrest
      intro x hx
      have := hs x hx
      simp [isSpecialChar] at this
      rintro (rfl | rfl) <;> tauto

/-- A record whose field parse ends at a newline is a one-field record. -/
lemma parseRow_newline (s f r : List Char) (hf : parseField s = (f, '\n' :: r)) :
    parseRow s = ([f], r) := by
  rw [parseRow.eq_def]
  split
  case _ c rest' heq =>
    rw [hf] at heq
    injection heq with h1 h2
    subst h2
    rw [← h1]
    simp [hf]
  case _ heq =>
    rw [hf] at heq
    simp at heq

/-- A record whose field parse ends at a comma continues with the rest of the
record. -/
lemma parseRow_comma (s f r : List Char) (hf : parseField s = (f, ',' :: r)) :
    parseRow s = (f :: (parseRow r).1, (parseRow r).2) := by
  rw [parseRow.eq_def]
  split
  case _ c rest' heq =>
    rw [hf] at heq
    injection heq with h1 h2
    subst h2
    rw [← h1]
    simp [hf]
  case _ heq =>
    rw [hf] at heq
    simp at heq

/-- Record parsing inverts record encoding for a nonempty record. -/
lemma parseRow_encodeRow (cells : List (List Char)) (rest : List Char) (h : cells ≠ []) :
    parseRow (encodeRow cells ++ '\n' :: rest) = (cells, rest) := by
  induction cells with
  | nil => exact absurd rfl h
  | cons c cs ih =>
    cases cs with
    | nil =>
      have hf := parseField_encodeCell c ('\n' :: rest)
        (Or.inr ⟨'\n', rest, rfl, Or.inr rfl⟩)
      rw [encodeRow]
      exact parseRow_newline _ _ _ hf
    | cons c2 cs2 =>
      have hassoc : encodeRow (c :: c2 :: cs2) ++ '\n' :: rest
          = encodeCell c ++ (',' :: (encodeRow (c2 :: cs2) ++ '\n' :: rest)) := by
        simp [encodeRow]
      have hf := parseField_encodeCell c (',' :: (encodeRow (c2 :: cs2) ++ '\n' :: rest))
        (Or.inr ⟨',', _, rfl, Or.inl rfl⟩)
      have hih := ih (fun hc => List.noConfusion hc)
      rw [hassoc, parseRow_comma _ _ _ hf, hih]

/-- Unfolding of the writer on one more record. -/
lemma encodeCSV_cons (r : List (List Char)) (rows : List (List (List Char))) :
    encodeCSV (r :: rows) = encodeRow r ++ '\n' :: encodeCSV rows := by
  simp [encodeCSV]

/-- With enough fuel, the reader inverts the writer row by row. -/
lemma parseCSVFuel_encodeCSV (rows : List (List (List Char))) (fuel : Nat)
    (hfuel : rows.length ≤ fuel) (hrows : ∀ r ∈ rows, r ≠ []) :
    parseCSVFuel fuel (encodeCSV rows) = rows := by
  induction rows generalizing fuel with
  | nil =>
    cases fuel with
    | zero => rfl
    | succ n => simp [parseCSVFuel, encodeCSV]
  | cons r rows' ih =>
    cases fuel with
    | zero => exact absurd hfuel (by simp)
    | succ n =>
      rw [encodeCSV_cons, parseCSVFuel]
      have hne : (encodeRow r ++ '\n' :: encodeCSV rows').isEmpty = false := by
        cases he : encodeRow r <;> simp [he]
      rw [hne]
      simp only [Bool.false_eq_true, if_false]
      rw [parseRow_encodeRow r (encodeCSV rows') (hrows r (List.mem_cons_self r rows'))]
      rw [ih n (by simp at hfuel; omega)
        (fun x hx => hrows x (List.mem_cons_of_mem r hx))]

/-- Every record contributes at least its newline to the written text. -/
lemma encodeCSV_length_ge (rows : List (List (List Char))) :
    rows.length ≤ (encodeCSV rows).length := by
  induction rows with
  | nil => simp [encodeCSV]
  | cons r rows' ih =>
    rw [encodeCSV_cons]
    simp
    omega

/-- The reader inverts the writer on any list of nonempty records. -/
lemma parseCSV_encodeCSV (rows : List (List (List Char))) (hrows : ∀ r ∈ rows, r ≠ []) :
    parseCSV (encodeCSV rows) = rows := by
  rw [parseCSV]
  exact parseCSVFuel_encodeCSV rows _ (by have := encodeCSV_length_ge rows; omega) hrows

/-- Number of data rows of a column-major table: the length of its first
column (all columns of a loaded table have this length). -/
def numRows {α : Type} (df : Table α) : Nat :=
  match df with
  | [] => 0
  | c :: _ => c.2.length

/-- Row-major image of a table: the header row of question names followed by
one row of cells per respondent. -/
def tableRows (df : Table String) : List (List (List Char)) :=
  (df.map (fun col => col.1.data)) ::
    (List.range (numRows df)).map (fun i => df.map (fun col => (col.2.getD i "").data))

/-- Modelled from the spec: `df_display.to_csv(index=False).encode('utf-8')`
— the external CSV writer serializes the (already identifier-free) table to a
comma-separated text with the header row included and the index excluded;
text is modelled at the character level. -/
def to_csv (df : Table String) : List Char := encodeCSV (tableRows df)

/-- Modelled from the spec: re-parsing the exported comma-separated text —
the first record is the header naming the columns, the remaining records are
the rows, reassembled into a column-major table of string cells. -/
def read_csv (s : List Char) : Table String :=
  let rows := parseCSV s
  let header := rows.headD []
  let dataRows := rows.tail
  (List.range header.length).map (fun j =>
    (String.mk (header.getD j []), dataRows.map (fun r => String.mk (r.getD j []))))

/-- Reading a list back off its indices is the identity. -/
lemma map_getD_range {α : Type} (l : List α) (d : α) :
    (List.range l.length).map (fun i => l.getD i d) = l := by
  apply List.ext_getElem (by simp)
  intro i h1 h2
  simp only [List.getElem_map, List.getElem_range]
  exact l.getD_eq_getElem d h2

/-- C9: exporting a loaded table to the comma-separated text format (header
row of question names included, index column excluded) and re-parsing that
text reproduces the table's cell values exactly — the export/parse round
trip is the identity on every table with at least one column and rectangular
columns. -/
theorem C9_csv_roundtrip (df : Table String) (hne : df ≠ [])
    (hwf : ∀ col ∈ df, col.2.length = numRows df) :
    read_csv (to_csv df) = df := by
  have hrows : ∀ r ∈ tableRows df, r ≠ [] := by
    intro r hr
    rcases List.mem_cons.mp hr with rfl | hr'
    · simpa using hne
    · obtain ⟨i, _, rfl⟩ := List.mem_map.mp hr'
      simpa using hne
  have hparse : parseCSV (to_csv df) = tableRows df := parseCSV_encodeCSV _ hrows
  simp only [read_csv, to_csv] at *
  rw [hparse, tableRows]
  simp only [List.headD_cons, List.tail_cons, List.length_map, List.map_map]
  apply List.ext_getElem (by simp)
  intro j h1 h2
  simp only [List.getElem_map, List.getElem_range]
  have hj : j < df.length := by simpa using h2
  rw [Prod.ext_iff]
  constructor
  · show String.mk ((df.map (fun col => col.1.data)).getD j []) = (df[j]).1
    rw [List.getD_eq_getElem _ _ (by simpa using hj), List.getElem_map]
  · show ((List.range (numRows df)).map
        ((fun r => String.mk (r.getD j [])) ∘ fun i => df.map (fun col => (col.2.getD i "").data)))
      = (df[j]).2
    have hcell : ∀ i : Nat,
        ((fun r => String.mk (r.getD j [])) ∘ fun i => df.map (fun col => (col.2.getD i "").data)) i
          = (df[j]).2.getD i "" := by
      intro i
      simp only [Function.comp]
      rw [List.getD_eq_getElem _ _ (by simpa using hj), List.getElem_map]
    rw [List.map_congr_left (fun i _ => hcell i)]
    have hlen : (df[j]).2.length = numRows df := hwf (df[j]) (List.getElem_mem hj)
    rw [← hlen, map_getD_range]

/-- C9 witness: the round trip on a concrete table whose cells contain a
comma, a quote and a line break. -/
theorem C9_csv_roundtrip_witness :
    read_csv (to_csv [("Q1", ["a,b", "says \"hi\""]), ("Q2", ["x", "y\nz"])])
      = [("Q1", ["a,b", "says \"hi\""]), ("Q2", ["x", "y\nz"])] :=
  C9_csv_roundtrip [("Q1", ["a,b", "says \"hi\""]), ("Q2", ["x", "y\nz"])]
    (by decide) (by decide)

end Kuesioner
